import Mathlib

/-!
Verification of the tiangong-ai-langgraph-server extraction/merge pipeline.

Shallow embedding, in Lean 4, of the control flow and aggregation logic of the
repository's TypeScript sources:

* `src/sort_agent.ts` — the per-item relevance/extract/evaluate/regenerate
  cycle (`StateAnnotation`, `checkRelevance`, `boundaryExtract`,
  `evaluatePolicyRecommendations`, `decideRegenerate`);
* the merge agent (`processInput` … `addSpatialTags` … `formatOutput`);
* `src/multi_agents/mfa.ts` — batch splitting and merge fallback
  (`mergeBoundaryData`, `mergeInBatches`), the bounded-concurrency admission
  loop of `runSortWorkflow`, and `checkArticleRelevance`;
* `src/multi_agents/extract.ts` — `extractArticleInfo` and
  `batchExtractArticles`.

External collaborator calls (LLM invocations, remote graphs) are modelled by
outcome oracles: a value of an outcome type describes, per call, what the
collaborator did (returned a parsed tool call, returned nothing parseable, or
threw).  All pipeline logic — defaults on failure, loop guards, reducers,
batching, fallbacks — is translated from the source.
-/

namespace SortPipeline

/-- Outcome of one collaborator (LLM / remote-graph) invocation, as the
calling code observes it: `toolCall args` — the response carried a parsed
tool call; `noToolCall` — the call returned but `response.tool_calls` was
empty; `threw` — the awaited promise rejected, landing in the `catch`. -/
inductive ToolCallOutcome (α : Type) where
  | toolCall (args : α)
  | noToolCall
  | threw
deriving DecidableEq, Repr

/-! ## sort_agent.ts — the per-item extraction cycle

`StateAnnotation` (src/sort_agent.ts:488-529).  The reducer of `cycleCount`
is `(x, _) => x + 1`: whenever a node update contains the `cycleCount` key,
the stored counter increments, regardless of the value sent.
`boundaryExtract` returns a `cycleCount` key on every one of its paths, so
every Extract call increments the counter by one; no other node returns that
key.  The reducer of `feedbackSuggestions` is `(_, y) => y`: it replaces. -/

/-- Schema `PolicyEvaluationResult` as used by
`evaluatePolicyRecommendations` (the evaluation verdict). -/
structure PolicyEvalResult where
  isComplete : Bool
  score : ℚ
  missingAspects : List String
  improvementSuggestions : List String
deriving DecidableEq, Repr

/-- Function `checkRelevance` (src/sort_agent.ts:534-629), restricted to the
`isRelevant` component of the state update it returns.  `query`/`content`
are the state fields the node reads; the failure branches ignore them.
On a parsed tool call the flag comes from the tool arguments; with no tool
call the initialisation `let isRelevant = false` survives; the `catch`
branch returns `isRelevant: false`. -/
def checkRelevance (query content : String) (o : ToolCallOutcome Bool) : Bool :=
  match o with
  | .toolCall isRelevant => isRelevant
  | .noToolCall => false
  | .threw => false

/-- Function `evaluatePolicyRecommendations` (src/sort_agent.ts:745-849), restricted
to the `evaluationResult` it returns.  `recs` is
`boundaryItem.policyRecommendations` (`[]` also covers a null
`boundaryItem`): when empty the node returns early with an incomplete
verdict and never calls the collaborator.  Otherwise: a parsed tool call is
returned as-is; no tool call, or a throw, yields the fail-open default
`isComplete = true, score = 0.5`. -/
def evaluatePolicyRecommendations (recs : List String)
    (o : ToolCallOutcome PolicyEvalResult) : PolicyEvalResult :=
  if recs.isEmpty then
    ⟨false, 0, ["No policy recommendations found"],
      ["Extract policy recommendations from the text"]⟩
  else
    match o with
    | .toolCall r => r
    | .noToolCall => ⟨true, 1/2, ["Evaluation failed"], []⟩
    | .threw => ⟨true, 1/2, ["Evaluation error"], []⟩

/-- The `feedbackSuggestions` component of the state update of
`evaluatePolicyRecommendations`: only the parsed-tool-call branch returns
that key (replacing the stored list, per the reducer); the early-return and
failure branches leave the stored value untouched. -/
def evaluateFeedbackUpdate (recs : List String) (fb : List String)
    (o : ToolCallOutcome PolicyEvalResult) : List String :=
  if recs.isEmpty then fb
  else
    match o with
    | .toolCall r => r.improvementSuggestions
    | .noToolCall => fb
    | .threw => fb

/-- Function `decideRegenerate` (src/sort_agent.ts:865-881): the conditional edge
after evaluation; `true` means the `regenerate` edge (back to
`boundaryExtract`), `false` the `end` edge. -/
def decideRegenerate (isComplete : Bool) (cycleCount : Nat) : Bool :=
  if isComplete || cycleCount ≥ 2 then false else true

/-- One run of the Extract→Evaluate→Decide loop for a relevant item, counting
Extract calls.  `evalComplete k` is the `isComplete` flag of the verdict the
`k`-th Evaluate step stores (however produced).  Arguments after the fuel:
index of the next Evaluate, current `cycleCount`, Extract calls so far.
Returns (Extract calls, final `cycleCount`).  Each iteration is: one
`boundaryExtract` (whose update increments `cycleCount` through the reducer),
one `evaluatePolicyRecommendations`, then `decideRegenerate` on the updated
state.  The fuel only bounds the recursion; 3 is enough for every run since
regeneration requires `cycleCount < 2` (shown by `cycleLoop_fuel_ge`). -/
def cycleLoop (evalComplete : Nat → Bool) :
    Nat → Nat → Nat → Nat → Nat × Nat
  | 0, _, cc, calls => (calls, cc)
  | fuel + 1, idx, cc, calls =>
    let cc1 := cc + 1
    let calls1 := calls + 1
    if decideRegenerate (evalComplete idx) cc1 then
      cycleLoop evalComplete fuel (idx + 1) cc1 calls1
    else
      (calls1, cc1)

/-- The whole cycle for an item that passed the relevance check: the graph
enters `boundaryExtract` with `cycleCount = 0` (the annotation default). -/
def runRelevantItemCycle (evalComplete : Nat → Bool) : Nat × Nat :=
  cycleLoop evalComplete 3 0 0 0

/-- The `cycleCount` values observable at the Decide point (just after the k-th
Evaluate step), for an arbitrary evaluator behaviour `evalComplete`.  The
first Extract raises the counter from its default 0 to 1; each taken
`regenerate` edge leads through one more Extract, incrementing again. -/
inductive DecideReachable (evalComplete : Nat → Bool) : Nat → Nat → Prop where
  | first : DecideReachable evalComplete 1 0
  | regen (cc idx : Nat) :
      DecideReachable evalComplete cc idx →
      decideRegenerate (evalComplete idx) cc = true →
      DecideReachable evalComplete (cc + 1) (idx + 1)

theorem decideRegenerate_iff (e : Bool) (cc : Nat) :
    decideRegenerate e cc = true ↔ (e = false ∧ cc < 2) := by
  unfold decideRegenerate
  constructor
  · intro h
    by_cases he : e = true
    · simp [he] at h
    · refine ⟨by simpa using he, ?_⟩
      by_cases hc : cc ≥ 2
      · simp [hc] at h
      · omega
  · rintro ⟨he, hc⟩
    simp [he]
    omega

theorem decideReachable_le_two (evalComplete : Nat → Bool) (cc idx : Nat)
    (h : DecideReachable evalComplete cc idx) : cc ≤ 2 := by
  induction h with
  | first => omega
  | regen cc idx _ hdec _ =>
    have := (decideRegenerate_iff _ _).1 hdec
    omega

/-- With enough fuel the loop result does not depend on the fuel: the guard
`decideRegenerate` forbids entering an iteration with `cycleCount ≥ 2`. -/
theorem cycleLoop_fuel_ge (evalComplete : Nat → Bool) :
    ∀ fuel fuel' idx cc calls, 0 < fuel → 0 < fuel' →
    2 - cc ≤ fuel → 2 - cc ≤ fuel' →
    cycleLoop evalComplete fuel idx cc calls
      = cycleLoop evalComplete fuel' idx cc calls := by
  intro fuel
  induction fuel with
  | zero =>
    intro fuel' idx cc calls h0 _ _ _
    omega
  | succ n ih =>
    intro fuel' idx cc calls _ h0' h h'
    cases fuel' with
    | zero => omega
    | succ m =>
      simp only [cycleLoop]
      by_cases hreg : decideRegenerate (evalComplete idx) (cc + 1) = true
      · have hlt := ((decideRegenerate_iff _ _).1 hreg).2
        have hcc : cc = 0 := by omega
        simp only [hreg, if_true]
        exact ih m (idx + 1) (cc + 1) (calls + 1) (by omega) (by omega)
          (by omega) (by omega)
      · simp [hreg]

/-! ### The Extract prompt (`boundaryExtract`, src/sort_agent.ts:656-691)

`promptTemplate` starts as the base instruction template; when
`feedbackSuggestions` is non-empty, the feedback block is appended with
`promptTemplate += …`.  The `\n` sequences visible below as `\\n` are the
two-character escape sequences that the TypeScript template literal itself
contains as text. -/

/-- The base extraction instruction template (the initial value of
`promptTemplate`). -/
def extractBasePrompt : String :=
  "\n    You are a research assistant analyzing scientific papers about material flow analysis and circular economy.\\n\n    Extract precise boundary information from the provided content, focusing on aspects relevant to: {query}\\n\n\n    Content:\\n\n    {content}\\n\n\n    Extract the following key boundary information:\\n\n    \n    1. Source: Extract the complete citation or reference information\\n\n    2. Spatial Scope: What specific geographic area or system boundary does the study cover? Be as detailed as possible.\\n\n    3. Time Range: What specific time period does the study analyze? Include start and end years.\\n\n    4. Policy Recommendations: Extract all policy recommendations from the study. Provide them as complete sentences with context.\\n\n       - Include the rationale and context for each recommendation\\n\n       - Preserve the specific language used in the original text\\n\n    \n    Provide only factual information directly stated in the text.\\n\n    For policy recommendations, extract all recommendations as separate items, ensuring each one is complete and contextual.\\n\n  "

/-- Numbering of the suggestions: each suggestion is prefixed with its
1-based index and a dot, and the pieces are joined with a newline plus four
spaces. -/
def numberedSuggestions (fs : List String) : String :=
  String.intercalate "\n    " (fs.enum.map (fun p => toString (p.1 + 1) ++ ". " ++ p.2))

/-- The block appended to `promptTemplate` when feedback is present. -/
def feedbackBlock (fs : List String) : String :=
  "\n\nIMPORTANT FEEDBACK - Please address these issues with your previous extraction:\n    " ++ numberedSuggestions fs ++ "\n    \n    Make sure to thoroughly review the content again and extract more comprehensive and contextual policy recommendations."

/-- The full prompt template `boundaryExtract` hands to the model, as a
function of the `feedbackSuggestions` state field. -/
def extractPromptTemplate (feedbackSuggestions : List String) : String :=
  if feedbackSuggestions.isEmpty then extractBasePrompt
  else extractBasePrompt ++ feedbackBlock feedbackSuggestions

/-- Modelled from the spec: §4.2 `Extract` says the accumulated suggestions
are "prepended to the original extraction instructions".  This definition
follows the spec wording, for comparison with `extractPromptTemplate`
translated from the source. -/
def extractPromptTemplateSpecPrepend (feedbackSuggestions : List String) : String :=
  if feedbackSuggestions.isEmpty then extractBasePrompt
  else feedbackBlock feedbackSuggestions ++ extractBasePrompt

/-! ### Feedback trace of one cycle

`cycleTraceLoop` re-runs the Extract→Evaluate→Decide loop recording, for
every Extract call, the `feedbackSuggestions` value the call reads.
`extractRecs k` is the `policyRecommendations` list the k-th Extract stores
in `boundaryItem` (`[]` covering a failed extraction), `evalO k` the outcome
of the k-th evaluation call. -/
def cycleTraceLoop (extractRecs : Nat → List String)
    (evalO : Nat → ToolCallOutcome PolicyEvalResult) :
    Nat → Nat → Nat → List String → List (List String) → List (List String)
  | 0, _, _, _, acc => acc
  | fuel + 1, idx, cc, fb, acc =>
    let acc1 := acc ++ [fb]
    let cc1 := cc + 1
    let recs := extractRecs idx
    let r := evaluatePolicyRecommendations recs (evalO idx)
    let fb1 := evaluateFeedbackUpdate recs fb (evalO idx)
    if decideRegenerate r.isComplete cc1 then
      cycleTraceLoop extractRecs evalO fuel (idx + 1) cc1 fb1 acc1
    else acc1

/-- The list of feedback values read by the successive Extract calls of one
cycle (the graph enters with `cycleCount = 0` and empty feedback). -/
def cycleFeedbacks (extractRecs : Nat → List String)
    (evalO : Nat → ToolCallOutcome PolicyEvalResult) : List (List String) :=
  cycleTraceLoop extractRecs evalO 3 0 0 [] []

theorem cycleFeedbacks_eq (extractRecs : Nat → List String)
    (evalR : Nat → PolicyEvalResult) (h0 : extractRecs 0 ≠ []) :
    cycleFeedbacks extractRecs (fun j => .toolCall (evalR j)) =
      if (evalR 0).isComplete then [[]]
      else [[], (evalR 0).improvementSuggestions] := by
  obtain ⟨a, as, ha⟩ := List.exists_cons_of_ne_nil h0
  by_cases hc : (evalR 0).isComplete
  · simp [cycleFeedbacks, cycleTraceLoop, evaluatePolicyRecommendations,
      evaluateFeedbackUpdate, decideRegenerate, ha, hc]
  · simp [cycleFeedbacks, cycleTraceLoop, evaluatePolicyRecommendations,
      evaluateFeedbackUpdate, decideRegenerate, ha, hc]

/-- C1 (counterexample to the claim as stated): running the cycle with an
evaluator that always returns `complete = false`, the number of Extract
calls is 2, not 3: `boundaryExtract` returns a `cycleCount` key on every
path and the annotation reducer `(x, _) => x + 1` therefore increments the
counter on the initial Extract as well, so the guard `cycleCount >= 2` in
`decideRegenerate` already stops the cycle after a single regeneration. -/
theorem cycle_extract_count_is_two_not_three :
    (runRelevantItemCycle (fun _ => false)).1 = 2 ∧
    (runRelevantItemCycle (fun _ => false)).1 ≠ 3 :=
  ⟨rfl, by decide⟩

/-- C1 (amended): the Decide step regenerates iff the verdict is not
complete and `cycleCount < 2` (`maxCycles = 2`); every `cycleCount`
observable at a Decide point is ≤ 2; and for a run in which the evaluator
always returns `complete = false`, exactly 2 Extract calls occur (1 initial
+ 1 regenerate) before the cycle terminates, ending with `cycleCount = 2`. -/
theorem cycle_guard_bound_and_extract_count (evalComplete : Nat → Bool) :
    (∀ e cc, decideRegenerate e cc = true ↔ (e = false ∧ cc < 2)) ∧
    (∀ cc idx, DecideReachable evalComplete cc idx → cc ≤ 2) ∧
    runRelevantItemCycle (fun _ => false) = (2, 2) :=
  ⟨decideRegenerate_iff,
   fun cc idx h => decideReachable_le_two evalComplete cc idx h,
   rfl⟩

/-- Witness for `cycle_guard_bound_and_extract_count` at concrete inputs. -/
theorem cycle_guard_bound_and_extract_count_witness :
    (decideRegenerate false 1 = true ↔ (false = false ∧ 1 < 2)) ∧
    (1 ≤ 2) ∧
    runRelevantItemCycle (fun _ => false) = (2, 2) :=
  ⟨(cycle_guard_bound_and_extract_count (fun _ => false)).1 false 1,
   (cycle_guard_bound_and_extract_count (fun _ => false)).2.1 1 0
     DecideReachable.first,
   (cycle_guard_bound_and_extract_count (fun _ => false)).2.2⟩

/-- C3 (counterexample to the claim as stated): the feedback block is
appended after the original extraction instructions (`promptTemplate +=`),
not prepended to them — with one suggestion the two readings give different
prompt strings. -/
theorem feedback_prepend_counterexample :
    extractPromptTemplate ["Add more context"]
      ≠ extractPromptTemplateSpecPrepend ["Add more context"] := by
  decide

/-- C3 (amended): within one cycle, the feedback passed to every Extract
call equals the concatenation of the suggestions produced by all prior
Evaluate steps of that cycle (the reducer replaces the stored list, which
coincides with concatenation because the cycle admits at most one
regeneration), and it is appended — not prepended — to the original
extraction instructions.  Stated for runs whose evaluation calls return
parseable verdicts and whose extractions produce recommendations. -/
theorem feedback_appended_and_accumulated (extractRecs : Nat → List String)
    (evalR : Nat → PolicyEvalResult) (h0 : extractRecs 0 ≠ []) :
    (∀ fs, fs ≠ [] →
      extractPromptTemplate fs = extractBasePrompt ++ feedbackBlock fs) ∧
    extractPromptTemplate [] = extractBasePrompt ∧
    (∀ k, k < (cycleFeedbacks extractRecs
        (fun j => .toolCall (evalR j))).length →
      (cycleFeedbacks extractRecs (fun j => .toolCall (evalR j)))[k]?
        = some (((List.range k).map
            (fun j => (evalR j).improvementSuggestions)).flatten)) := by
  refine ⟨?_, ?_, ?_⟩
  · intro fs hfs
    obtain ⟨a, as, ha⟩ := List.exists_cons_of_ne_nil hfs
    simp [extractPromptTemplate, ha]
  · simp [extractPromptTemplate]
  · intro k hk
    rw [cycleFeedbacks_eq extractRecs evalR h0] at hk ⊢
    by_cases hc : (evalR 0).isComplete
    · simp [hc] at hk ⊢
      have hk0 : k = 0 := by omega
      subst hk0
      simp
    · simp only [hc, Bool.false_eq_true, if_false] at hk ⊢
      have : k = 0 ∨ k = 1 := by
        simp only [List.length_cons, List.length_nil] at hk
        omega
      rcases this with h | h <;> subst h <;> simp [List.range_succ]

/-- Witness for `feedback_appended_and_accumulated` at concrete inputs. -/
theorem feedback_appended_and_accumulated_witness :
    extractPromptTemplate ["Be specific"]
        = extractBasePrompt ++ feedbackBlock ["Be specific"] ∧
    (cycleFeedbacks (fun _ => ["some rec"])
        (fun j => .toolCall ((fun _ => (⟨false, 0, [], ["add detail"]⟩ :
          PolicyEvalResult)) j)))[1]?
      = some (((List.range 1).map
          (fun j => ((fun _ => (⟨false, 0, [], ["add detail"]⟩ :
            PolicyEvalResult)) j).improvementSuggestions)).flatten) :=
  ⟨(feedback_appended_and_accumulated (fun _ => ["some rec"])
      (fun _ => ⟨false, 0, [], ["add detail"]⟩) (by decide)).1
      ["Be specific"] (by decide),
   (feedback_appended_and_accumulated (fun _ => ["some rec"])
      (fun _ => ⟨false, 0, [], ["add detail"]⟩) (by decide)).2.2 1 (by decide)⟩

/-- C2: the failure defaults of the two collaborator calls of the cycle are
asymmetric, for every input item: a failed relevance check yields
`isRelevant = false` (fail-closed), while a failed or unparseable
evaluation yields `complete = true, score = 0.5` (fail-open).  `recs ≠ []`
restricts to items for which the evaluation call is actually made (on an
empty recommendation list `evaluatePolicyRecommendations` returns early
without calling the collaborator). -/
theorem failure_default_verdicts (query content : String) (recs : List String)
    (h : recs ≠ []) :
    checkRelevance query content .threw = false ∧
    (evaluatePolicyRecommendations recs .threw).isComplete = true ∧
    (evaluatePolicyRecommendations recs .threw).score = 1/2 ∧
    (evaluatePolicyRecommendations recs .noToolCall).isComplete = true ∧
    (evaluatePolicyRecommendations recs .noToolCall).score = 1/2 := by
  obtain ⟨a, as, ha⟩ := List.exists_cons_of_ne_nil h
  subst ha
  exact ⟨rfl, rfl, rfl, rfl, rfl⟩

/-- Witness for `failure_default_verdicts` at concrete inputs. -/
theorem failure_default_verdicts_witness :
    checkRelevance "q" "c" .threw = false ∧
    (evaluatePolicyRecommendations ["rec one"] .threw).isComplete = true ∧
    (evaluatePolicyRecommendations ["rec one"] .threw).score = 1/2 ∧
    (evaluatePolicyRecommendations ["rec one"] .noToolCall).isComplete = true ∧
    (evaluatePolicyRecommendations ["rec one"] .noToolCall).score = 1/2 :=
  failure_default_verdicts "q" "c" ["rec one"] (by decide)

/-! ## The merge agent — `addSpatialTags`

`tagSchema` restricts `spatialTag` to the enum
`['city', 'province', 'national', 'focus']`; `addSpatialTags` loops over the
merged items, calls the tagging collaborator per item inside `try`, pushes
the item extended with the returned tag when the response carries a tool
call, and on no tool call, or on a thrown error, pushes nothing (the source
comments: do NOT add the item, the default "not specified" tag is no longer
used).  `formatOutput` then serialises `taggedResults` as the final
output. -/

/-- The `z.enum(['city', 'province', 'national', 'focus'])` of `tagSchema`. -/
inductive SpatialTag where
  | city
  | province
  | national
  | focus
deriving DecidableEq, Repr

/-- Schema `BoundaryItem` of the merge agent (after `mergeBySource`): `source`,
`SpatialScope`, optional `spatialTag`, `timeRange`,
`policyRecommendations`. -/
structure MergedBoundaryItem where
  source : String
  SpatialScope : String
  spatialTag : Option SpatialTag
  timeRange : String
  policyRecommendations : List String
deriving DecidableEq, Repr

/-- Function `addSpatialTags`: `tagO` is the per-item outcome of the classification
call (`noToolCall` also covers the catch branch jointly with `threw`: both
skip the item). -/
def addSpatialTags (tagO : MergedBoundaryItem → ToolCallOutcome SpatialTag) :
    List MergedBoundaryItem → List MergedBoundaryItem
  | [] => []
  | item :: rest =>
    match tagO item with
    | .toolCall t => { item with spatialTag := some t } :: addSpatialTags tagO rest
    | .noToolCall => addSpatialTags tagO rest
    | .threw => addSpatialTags tagO rest

theorem addSpatialTags_tagged (tagO : MergedBoundaryItem → ToolCallOutcome SpatialTag)
    (items : List MergedBoundaryItem) :
    ∀ x ∈ addSpatialTags tagO items, ∃ i ∈ items, ∃ t,
      tagO i = .toolCall t ∧ x = { i with spatialTag := some t } := by
  induction items with
  | nil => simp [addSpatialTags]
  | cons a rest ih =>
    intro x hx
    cases hta : tagO a with
    | toolCall t =>
      simp only [addSpatialTags, hta] at hx
      rcases List.mem_cons.mp hx with hx | hx
      · exact ⟨a, by simp, t, hta, hx⟩
      · obtain ⟨i, hi, t2, ht2, hx2⟩ := ih x hx
        exact ⟨i, by simp [hi], t2, ht2, hx2⟩
    | noToolCall =>
      simp only [addSpatialTags, hta] at hx
      obtain ⟨i, hi, t2, ht2, hx2⟩ := ih x hx
      exact ⟨i, by simp [hi], t2, ht2, hx2⟩
    | threw =>
      simp only [addSpatialTags, hta] at hx
      obtain ⟨i, hi, t2, ht2, hx2⟩ := ih x hx
      exact ⟨i, by simp [hi], t2, ht2, hx2⟩

theorem addSpatialTags_length (tagO : MergedBoundaryItem → ToolCallOutcome SpatialTag)
    (items : List MergedBoundaryItem) :
    (addSpatialTags tagO items).length
      = items.countP (fun i =>
          match tagO i with
          | .toolCall _ => true
          | _ => false) := by
  induction items with
  | nil => simp [addSpatialTags]
  | cons a rest ih =>
    cases hta : tagO a with
    | toolCall t => simp [addSpatialTags, hta, List.countP_cons, ih]
    | noToolCall => simp [addSpatialTags, hta, List.countP_cons, ih]
    | threw => simp [addSpatialTags, hta, List.countP_cons, ih]

/-- A concrete merged record whose spatial scope the classifier declines to
tag. -/
def sampleMergedItem : MergedBoundaryItem :=
  ⟨"Doe 2020", "unclear study region", none, "2000-2010",
    ["improve recycling"]⟩

/-- C4 (counterexample to the claim as stated): a kept merged record whose
tag cannot be determined (the tagging call returns no tool call) is dropped
— it appears in no bucket of the output, instead of going to a reserved
untagged bucket. -/
theorem untagged_item_dropped_counterexample :
    addSpatialTags (fun _ => .noToolCall) [sampleMergedItem] = [] ∧
    sampleMergedItem ∉ addSpatialTags (fun _ => .noToolCall) [sampleMergedItem] := by
  refine ⟨rfl, ?_⟩
  intro h
  simp [addSpatialTags] at h

/-- C4 (amended): the final tagging stage keeps a merged record only when
the classifier returns a tag; every kept record carries exactly one tag
from the enum `{city, province, national, focus}` and originates from an
input record with a successful classification; records whose tag is missing
or undetermined are dropped (there is no untagged bucket), so the output
length equals the number of successfully classified inputs. -/
theorem addSpatialTags_partition (tagO : MergedBoundaryItem → ToolCallOutcome SpatialTag)
    (items : List MergedBoundaryItem) :
    (∀ x ∈ addSpatialTags tagO items, ∃ t : SpatialTag, x.spatialTag = some t) ∧
    ((addSpatialTags tagO items).length
      = items.countP (fun i =>
          match tagO i with
          | .toolCall _ => true
          | _ => false)) ∧
    (∀ x ∈ addSpatialTags tagO items, ∃ i ∈ items, ∃ t,
      tagO i = .toolCall t ∧ x = { i with spatialTag := some t }) := by
  refine ⟨?_, addSpatialTags_length tagO items, addSpatialTags_tagged tagO items⟩
  intro x hx
  obtain ⟨i, _, t, _, hx2⟩ := addSpatialTags_tagged tagO items x hx
  exact ⟨t, by simp [hx2]⟩

/-- Witness for `addSpatialTags_partition` at concrete inputs. -/
theorem addSpatialTags_partition_witness :
    (∃ t : SpatialTag,
      ({ sampleMergedItem with spatialTag := some SpatialTag.city } :
        MergedBoundaryItem).spatialTag = some t) ∧
    (addSpatialTags (fun _ => .toolCall .city) [sampleMergedItem]).length = 1 := by
  refine ⟨(addSpatialTags_partition (fun _ => .toolCall .city)
      [sampleMergedItem]).1 _ ?_, ?_⟩
  · simp [addSpatialTags]
  · have h := (addSpatialTags_partition (fun _ => .toolCall .city)
      [sampleMergedItem]).2.1
    simpa using h

/-! ## mfa.ts — batch splitting and merge fallback

`mergeBoundaryData` switches to batch processing when
`boundaryData.length > 15`; `mergeInBatches` splits with
`for (let i = 0; i < boundaryData.length; i += batchSize)
  batches.push(boundaryData.slice(i, i + batchSize))`
at `batchSize = 10`, then processes batches sequentially, pushing the parsed
merge result (array spread, single object wrapped) on success, pushing the
batch unmerged on a caught error, and pushing nothing when the result has no
messages or non-string content. -/

/-- The slicing loop, with fuel (the loop advances by `size` each pass, so
the list length bounds the number of passes when `0 < size`). -/
def chunkedGo (size : Nat) : Nat → List α → List (List α)
  | 0, _ => []
  | _, [] => []
  | fuel + 1, l@(_ :: _) => l.take size :: chunkedGo size fuel (l.drop size)

/-- The `slice`-based batch splitting of `mergeInBatches` (and of
`batchExtractArticles` in extract.ts, which uses the same loop shape with
`PROCESSING_BATCH_SIZE = 5`). -/
def chunked (size : Nat) (l : List α) : List (List α) :=
  chunkedGo size l.length l

theorem chunkedGo_nil (size fuel : Nat) :
    chunkedGo size fuel ([] : List α) = [] := by
  cases fuel <;> rfl

theorem chunkedGo_fuel_inv (size : Nat) (hs : 0 < size) :
    ∀ fuel fuel' (l : List α), l.length ≤ fuel → l.length ≤ fuel' →
    chunkedGo size fuel l = chunkedGo size fuel' l := by
  intro fuel
  induction fuel with
  | zero =>
    intro fuel' l h _
    have : l = [] := List.eq_nil_of_length_eq_zero (by omega)
    subst this
    simp [chunkedGo_nil]
  | succ n ih =>
    intro fuel' l h h'
    cases l with
    | nil => simp [chunkedGo_nil]
    | cons a t =>
      cases fuel' with
      | zero => simp at h'
      | succ m =>
        simp only [chunkedGo]
        rw [ih m ((a :: t).drop size)
          (by simp only [List.length_drop, List.length_cons] at h ⊢; omega)
          (by simp only [List.length_drop, List.length_cons] at h' ⊢; omega)]

theorem chunked_cons (size : Nat) (hs : 0 < size) (l : List α) (hl : l ≠ []) :
    chunked size l = l.take size :: chunked size (l.drop size) := by
  obtain ⟨a, t, rfl⟩ := List.exists_cons_of_ne_nil hl
  show chunkedGo size (t.length + 1) (a :: t)
    = (a :: t).take size :: chunked size ((a :: t).drop size)
  simp only [chunkedGo]
  rw [chunkedGo_fuel_inv size hs t.length ((a :: t).drop size).length
    ((a :: t).drop size)
    (by simp only [List.length_drop, List.length_cons]; omega) le_rfl]
  rfl

theorem chunked_flatten (size : Nat) (hs : 0 < size) :
    ∀ (l : List α), (chunked size l).flatten = l := by
  have go : ∀ (fuel : Nat) (l : List α), l.length ≤ fuel →
      (chunkedGo size fuel l).flatten = l := by
    intro fuel
    induction fuel with
    | zero =>
      intro l h
      have : l = [] := List.eq_nil_of_length_eq_zero (by omega)
      subst this
      simp [chunkedGo_nil]
    | succ n ih =>
      intro l h
      cases l with
      | nil => simp [chunkedGo_nil]
      | cons a t =>
        simp only [chunkedGo, List.flatten_cons]
        rw [ih ((a :: t).drop size)
          (by simp only [List.length_drop, List.length_cons] at h ⊢; omega),
          List.take_append_drop]
  intro l
  exact go l.length l le_rfl

theorem chunked_length_le (size : Nat) (hs : 0 < size) (l : List α) :
    ∀ b ∈ chunked size l, b.length ≤ size := by
  have go : ∀ (fuel : Nat) (l : List α), l.length ≤ fuel →
      ∀ b ∈ chunkedGo size fuel l, b.length ≤ size := by
    intro fuel
    induction fuel with
    | zero =>
      intro l h b hb
      have : l = [] := List.eq_nil_of_length_eq_zero (by omega)
      subst this
      simp [chunkedGo_nil] at hb
    | succ n ih =>
      intro l h b hb
      cases l with
      | nil => simp [chunkedGo_nil] at hb
      | cons a t =>
        simp only [chunkedGo] at hb
        rcases List.mem_cons.mp hb with hb | hb
        · subst hb
          simp
        · exact ih ((a :: t).drop size)
            (by simp only [List.length_drop, List.length_cons] at h ⊢; omega)
            b hb
  exact go l.length l le_rfl

theorem chunked_full (size : Nat) (hs : 0 < size) (l : List α) :
    ∀ i b, i + 1 < (chunked size l).length → (chunked size l)[i]? = some b →
    b.length = size := by
  have go : ∀ (fuel : Nat) (l : List α), l.length ≤ fuel →
      ∀ i b, i + 1 < (chunkedGo size fuel l).length →
      (chunkedGo size fuel l)[i]? = some b → b.length = size := by
    intro fuel
    induction fuel with
    | zero =>
      intro l h i b hi _
      have : l = [] := List.eq_nil_of_length_eq_zero (by omega)
      subst this
      simp [chunkedGo_nil] at hi
    | succ n ih =>
      intro l h i b hi hb
      cases l with
      | nil => simp [chunkedGo_nil] at hi
      | cons a t =>
        simp only [chunkedGo] at hi hb
        cases i with
        | zero =>
          simp only [List.getElem?_cons_zero, Option.some.injEq] at hb
          subst hb
          have hrest : chunkedGo size n ((a :: t).drop size) ≠ [] := by
            intro hnil
            rw [hnil] at hi
            simp at hi
          have hdrop : (a :: t).drop size ≠ [] := by
            intro hnil
            rw [hnil, chunkedGo_nil] at hrest
            exact hrest rfl
          have hlen : size < (a :: t).length := by
            by_contra hle
            exact hdrop (List.drop_eq_nil_of_le (by omega))
          simp only [List.length_take, List.length_cons] at hlen ⊢
          omega
        | succ j =>
          simp only [List.getElem?_cons_succ] at hb
          simp only [List.length_cons] at hi
          exact ih ((a :: t).drop size)
            (by simp only [List.length_drop, List.length_cons] at h ⊢; omega)
            j b (by omega) hb
  exact go l.length l le_rfl

theorem chunked_twenty (l : List α) (h : l.length = 20) :
    (chunked 10 l).map List.length = [10, 10] := by
  have h1 : l ≠ [] := by
    intro hnil
    rw [hnil] at h
    simp at h
  have h2 : (l.drop 10) ≠ [] := by
    intro hnil
    have := congrArg List.length hnil
    simp [h] at this
  rw [chunked_cons 10 (by omega) l h1,
      chunked_cons 10 (by omega) (l.drop 10) h2]
  have h3 : (l.drop 10).drop 10 = [] := by
    rw [List.drop_drop]
    exact List.drop_eq_nil_of_le (by omega)
  rw [h3]
  show ([l.take 10, (l.drop 10).take 10] : List (List α)).map List.length
    = [10, 10]
  simp [List.length_take, List.length_drop, h]

/-- Outcome of one merge-agent invocation, as the caller in mfa.ts observes
it: `parsed items` — the call returned, the last message content was a
string and `JSON.parse` gave these items (an array is spread, a single
object contributes one item); `noParse` — the call returned but with no
messages or non-string content, so nothing is pushed; `threw` — the awaited
call rejected (after the configured timeout/`maxRetries`), landing in the
`catch`. -/
inductive MergeCallOutcome (α : Type) where
  | parsed (items : List α)
  | noParse
  | threw

/-- What one loop iteration of `mergeInBatches` contributes to
`mergedBatches` for a given batch. -/
def mergeBatchResult (batch : List α) (o : MergeCallOutcome α) : List α :=
  match o with
  | .parsed items => items
  | .noParse => []
  | .threw => batch

/-- The batch loop of `mergeInBatches`; `oB i` is the outcome of the merge
call for batch `i`. -/
def mergeInBatchesGo (oB : Nat → MergeCallOutcome α) :
    Nat → List (List α) → List α
  | _, [] => []
  | i, b :: bs => mergeBatchResult b (oB i) ++ mergeInBatchesGo oB (i + 1) bs

/-- Function `mergeInBatches` (mfa.ts:158-217), viewed at the level of the item list
serialised into the returned message. -/
def mergeInBatches (oB : Nat → MergeCallOutcome α) (data : List α) : List α :=
  mergeInBatchesGo oB 0 (chunked 10 data)

/-- The non-batch branch of `mergeBoundaryData`: one merge call over all
items; the `catch` returns a message carrying the original unmerged data. -/
def mergeSingleCall (o1 : MergeCallOutcome α) (data : List α) :
    Option (List α) :=
  match o1 with
  | .parsed items => some items
  | .noParse => none
  | .threw => some data

/-- Function `mergeBoundaryData` (mfa.ts:112-153), viewed at the level of the item
list parsed from the returned message (`none` — the caller cannot parse a
result). -/
def mergeBoundaryData (o1 : MergeCallOutcome α)
    (oB : Nat → MergeCallOutcome α) (data : List α) : Option (List α) :=
  if 15 < data.length then some (mergeInBatches oB data)
  else mergeSingleCall o1 data

theorem mergeInBatchesGo_threw_mem (oB : Nat → MergeCallOutcome α) :
    ∀ (bs : List (List α)) (start i : Nat) (b : List α),
    bs[i]? = some b → oB (start + i) = .threw →
    ∀ x ∈ b, x ∈ mergeInBatchesGo oB start bs := by
  intro bs
  induction bs with
  | nil =>
    intro start i b hb _ x _
    simp at hb
  | cons c cs ih =>
    intro start i b hb ho x hx
    cases i with
    | zero =>
      simp only [List.getElem?_cons_zero, Option.some.injEq] at hb
      subst hb
      simp only [Nat.add_zero] at ho
      simp [mergeInBatchesGo, mergeBatchResult, ho, hx]
    | succ j =>
      simp only [List.getElem?_cons_succ] at hb
      have := ih (start + 1) j b hb (by rw [Nat.add_assoc, Nat.add_comm 1 j]; exact ho) x hx
      simp [mergeInBatchesGo, this]

/-- C5: merge failure never drops data.  In the non-batch branch
(≤ 15 items), a thrown merge call makes `mergeBoundaryData` return the
original items unmerged; in the batch branch, every item of a batch whose
merge call threw appears in the `mergeInBatches` output (the catch pushes
`batches[i]` unmerged). -/
theorem merge_failure_returns_originals (α : Type) (data : List α)
    (oB : Nat → MergeCallOutcome α) :
    (data.length ≤ 15 → mergeBoundaryData .threw oB data = some data) ∧
    (∀ i b, oB i = .threw → (chunked 10 data)[i]? = some b →
      ∀ x ∈ b, x ∈ mergeInBatches oB data) := by
  constructor
  · intro h
    simp only [mergeBoundaryData, mergeSingleCall]
    rw [if_neg (by omega)]
  · intro i b ho hb x hx
    exact mergeInBatchesGo_threw_mem oB (chunked 10 data) 0 i b hb
      (by simpa using ho) x hx

/-- Witness for `merge_failure_returns_originals`: a 2-item collection with
a thrown merge call comes back unmerged, and with 16 items (batch mode) the
items of a thrown batch survive in the output. -/
theorem merge_failure_returns_originals_witness :
    mergeBoundaryData .threw (fun _ => .threw) [7, 9] = some [7, 9] ∧
    (3 : Nat) ∈ mergeInBatches (fun _ => (.threw : MergeCallOutcome Nat))
      (List.range 16) :=
  ⟨(merge_failure_returns_originals Nat [7, 9] (fun _ => .threw)).1 (by decide),
   (merge_failure_returns_originals Nat (List.range 16) (fun _ => .threw)).2
     0 ((List.range 16).take 10) rfl (by decide) 3 (by decide)⟩

/-- C6: batch splitting is a pure function of the item list.
`mergeBoundaryData` enters large-dataset mode (batch size 10) exactly when
the collection holds more than 15 items; splitting preserves the original
item order (the concatenation of the batches is the input); every batch
except possibly the last has exactly 10 items and no batch exceeds 10; a
20-item collection yields exactly 2 batches of sizes 10 and 10. -/
theorem batch_split_contract (α : Type) (data : List α)
    (o1 : MergeCallOutcome α) (oB : Nat → MergeCallOutcome α) :
    (15 < data.length →
      mergeBoundaryData o1 oB data = some (mergeInBatches oB data)) ∧
    (data.length ≤ 15 → mergeBoundaryData o1 oB data = mergeSingleCall o1 data) ∧
    (chunked 10 data).flatten = data ∧
    (∀ i b, i + 1 < (chunked 10 data).length →
      (chunked 10 data)[i]? = some b → b.length = 10) ∧
    (∀ b ∈ chunked 10 data, b.length ≤ 10) ∧
    (data.length = 20 → (chunked 10 data).map List.length = [10, 10]) := by
  refine ⟨?_, ?_, chunked_flatten 10 (by omega) data,
    chunked_full 10 (by omega) data, chunked_length_le 10 (by omega) data,
    chunked_twenty data⟩
  · intro h
    simp only [mergeBoundaryData]
    rw [if_pos h]
  · intro h
    simp only [mergeBoundaryData]
    rw [if_neg (by omega)]

/-- Witness for `batch_split_contract` on a concrete 20-item collection. -/
theorem batch_split_contract_witness :
    (chunked 10 (List.range 20)).map List.length = [10, 10] ∧
    (chunked 10 (List.range 20)).flatten = List.range 20 ∧
    mergeBoundaryData (.noParse) (fun _ => (.threw : MergeCallOutcome Nat))
      (List.range 20)
      = some (mergeInBatches (fun _ => .threw) (List.range 20)) :=
  ⟨(batch_split_contract Nat (List.range 20) .noParse
      (fun _ => .threw)).2.2.2.2.2 (by decide),
   (batch_split_contract Nat (List.range 20) .noParse (fun _ => .threw)).2.2.1,
   (batch_split_contract Nat (List.range 20) .noParse (fun _ => .threw)).1
     (by decide)⟩

/-! ## mfa.ts — the bounded-concurrency admission loop of `runSortWorkflow`

```
while (index < articles.length || activePromises > 0) {
  if (index < articles.length && activePromises < maxConcurrent) {
    … launch checkArticleRelevance(article); activePromises++; index++;
  } else { await sleep(100); }
}
```
Launching and the counter updates are synchronous (JavaScript is
single-threaded); a worker completing runs `activePromises--` in its
`.then`/`.catch` handler.  The model is the induced transition system over
(`index`, `activePromises`): a `launch` step is admitted only when
`index < total` and `activePromises < limit`; a `complete` step decrements
a positive counter.  `searchExpandAndMerge` bounds its search wave the same
way through `new PQueue({ concurrency: 3 })`. -/

/-- The counters of the admission loop. -/
structure SchedulerState where
  index : Nat
  activePromises : Nat
deriving DecidableEq, Repr

/-- One scheduling event of the admission loop. -/
inductive SchedulerStep (total limit : Nat) : SchedulerState → SchedulerState → Prop where
  | launch (s : SchedulerState) (hidx : s.index < total)
      (hact : s.activePromises < limit) :
      SchedulerStep total limit s ⟨s.index + 1, s.activePromises + 1⟩
  | complete (s : SchedulerState) (hact : 0 < s.activePromises) :
      SchedulerStep total limit s ⟨s.index, s.activePromises - 1⟩

/-- States reachable from the start of the relevance-check wave. -/
inductive SchedulerReachable (total limit : Nat) : SchedulerState → Prop where
  | init : SchedulerReachable total limit ⟨0, 0⟩
  | step (s s2 : SchedulerState) : SchedulerReachable total limit s →
      SchedulerStep total limit s s2 → SchedulerReachable total limit s2

/-- C8: in every run of the admission loop, the number of worker
invocations in flight never exceeds the configured limit — for every
reachable state, `activePromises ≤ limit` (in particular with `limit = 3`
over 20 items, the in-flight count never exceeds 3). -/
theorem scheduler_inflight_bound (total limit : Nat) (s : SchedulerState)
    (h : SchedulerReachable total limit s) : s.activePromises ≤ limit := by
  induction h with
  | init => exact Nat.zero_le limit
  | step s s2 _ hstep ih =>
    cases hstep with
    | launch hidx hact => exact hact
    | complete hact => exact Nat.le_trans (Nat.sub_le _ _) ih

/-- Witness for `scheduler_inflight_bound`: with `limit = 3` and 20 items,
the state reached after three launches has 3 workers in flight, within the
bound. -/
theorem scheduler_inflight_bound_witness :
    (⟨3, 3⟩ : SchedulerState).activePromises ≤ 3 :=
  scheduler_inflight_bound 20 3 ⟨3, 3⟩
    (.step _ _ (.step _ _ (.step _ _ .init
      (.launch ⟨0, 0⟩ (by decide) (by decide)))
      (.launch ⟨1, 1⟩ (by decide) (by decide)))
      (.launch ⟨2, 2⟩ (by decide) (by decide)))

/-! ## mfa.ts — `checkArticleRelevance` (the message-content fallback)

When the sort agent's result has no `isRelevant` flag, the code reads the
last message:

```
const content = typeof lastMessage.content === 'string'
  ? lastMessage.content.toLowerCase() : '';
const isRelevant = content.includes('Yes');
```

Strings are modelled as lists of characters; `toLowerCase` maps
`Char.toLower` over the characters (for Basic Latin this is exactly the
JavaScript behaviour, and no character lowercases to an upper-case letter
in either semantics); `includes` is substring containment. -/

/-- Model of `String.prototype.includes`: does `needle` occur contiguously in
`hay`? -/
def jsIncludes : List Char → List Char → Bool
  | [], needle => needle.isEmpty
  | c :: t, needle => needle.isPrefixOf (c :: t) || jsIncludes t needle

/-- Shape of `sortAgentGraph.invoke` results as `checkArticleRelevance`
distinguishes them: a result with an `isRelevant` flag; no flag but a last
message with string content; no flag and non-string content; no flag and no
messages; a thrown call. -/
inductive SortAgentResult where
  | withFlag (isRelevant : Bool)
  | noFlagLastMessage (content : List Char)
  | noFlagNonStringContent
  | noFlagNoMessages
  | threw

/-- Function `checkArticleRelevance` (mfa.ts:384-433). -/
def checkArticleRelevance : SortAgentResult → Bool
  | .withFlag b => b
  | .noFlagLastMessage content =>
      jsIncludes (content.map Char.toLower) ['Y', 'e', 's']
  | .noFlagNonStringContent =>
      jsIncludes (([] : List Char).map Char.toLower) ['Y', 'e', 's']
  | .noFlagNoMessages => false
  | .threw => false

theorem jsIncludes_head_mem (y : Char) (rest : List Char) :
    ∀ hay : List Char, jsIncludes hay (y :: rest) = true → y ∈ hay := by
  intro hay
  induction hay with
  | nil => intro h; simp [jsIncludes] at h
  | cons c t ih =>
    intro h
    simp only [jsIncludes, Bool.or_eq_true] at h
    rcases h with h | h
    · simp only [List.isPrefixOf, Bool.and_eq_true, beq_iff_eq] at h
      exact h.1 ▸ List.mem_cons_self c t
    · exact List.mem_cons_of_mem c (ih h)

theorem toLower_ne_upper_Y (c : Char) : c.toLower ≠ 'Y' := by
  by_cases h : c.toNat ≥ 65 ∧ c.toNat ≤ 90
  · have hEq : c.toLower = Char.ofNat (c.toNat + 32) := by
      unfold Char.toLower
      show (if c.toNat ≥ 65 ∧ c.toNat ≤ 90 then Char.ofNat (c.toNat + 32)
        else c) = _
      rw [if_pos h]
    rw [hEq]
    rcases h with ⟨h1, h2⟩
    revert h1 h2
    generalize c.toNat = n
    intro h1 h2
    interval_cases n <;> decide
  · have hEq : c.toLower = c := by
      unfold Char.toLower
      show (if c.toNat ≥ 65 ∧ c.toNat ≤ 90 then Char.ofNat (c.toNat + 32)
        else c) = c
      rw [if_neg h]
    rw [hEq]
    intro hc
    subst hc
    exact h (by decide)

theorem lowercased_has_no_upper_Y (l : List Char) :
    'Y' ∉ l.map Char.toLower := by
  intro h
  obtain ⟨c, _, hc⟩ := List.mem_map.mp h
  exact toLower_ne_upper_Y c hc

/-- C10: the message-content fallback of `checkArticleRelevance` lowercases
the content and then tests `includes('Yes')`; a lowercased string never
contains the character `Y`, so the test is false for every possible message
content and every such article is classified not relevant. -/
theorem relevance_fallback_always_false (content : List Char) :
    checkArticleRelevance (.noFlagLastMessage content) = false := by
  show jsIncludes (content.map Char.toLower) ['Y', 'e', 's'] = false
  cases hb : jsIncludes (content.map Char.toLower) ['Y', 'e', 's'] with
  | false => rfl
  | true =>
    exact absurd (jsIncludes_head_mem 'Y' ['e', 's'] _ hb)
      (lowercased_has_no_upper_Y content)

/-! ## extract.ts — `extractArticleInfo` and `batchExtractArticles`

`extractArticleInfo` wraps its whole body in `try … catch`; the `catch`
returns a record with `spatialScope`/`timeRange` set to
`'Error during processing'`.  `batchExtractArticles` processes articles in
slices of `PROCESSING_BATCH_SIZE = 5`, skipping articles whose search
results carry a known server-error marker, and wraps each
`extractArticleInfo` call in a `while (!success && retries < MAX_RETRIES)`
loop whose exhaustion path tags the record `'Error during extraction'`. -/

def MAX_RETRIES : Nat := 3

def PROCESSING_BATCH_SIZE : Nat := 5

/-- A subsection entry of the extraction result. -/
structure SubSection where
  subsectionTitle : String
  mainContent : String
  policyRecommendations : List String
deriving DecidableEq, Repr

/-- The article record flowing through extract.ts (`"Article Title"`,
`searchResults`, and the three fields the stage fills in; the remaining
metadata fields are carried through unchanged exactly like `title`). -/
structure Article where
  title : String
  spatialScope : String
  timeRange : String
  subSections : List SubSection
  searchResults : List String
deriving DecidableEq, Repr

/-- Shape of one field of the parsed collaborator output, as the
shape-sniffing code distinguishes it: a string is used as-is, a non-null
object is used via `toString()`, anything else falls back to
`'Not specified'`. -/
inductive JsonField where
  | str (s : String)
  | obj (asString : String)
  | absent
deriving DecidableEq, Repr

def readStringField : JsonField → String
  | .str s => s
  | .obj r => r
  | .absent => "Not specified"

/-- Shape of `result.output[0]` of a successful extraction call. -/
structure ExtractedData where
  spatialScope : JsonField
  timeRange : JsonField
  subSections : List SubSection
deriving DecidableEq, Repr

/-- What one `extractGraph.invoke` attempt did, as the `try` block observes
it: the awaited call rejected (`threw`), returned a falsy result
(`nullResult`), returned data in `result.output` (`withOutput`), or
returned without valid output (`emptyOutput`). -/
inductive ExtractInvokeOutcome where
  | threw
  | nullResult
  | withOutput (d : ExtractedData)
  | emptyOutput
deriving DecidableEq, Repr

/-- The placeholder subsection inserted when the extraction produced no
subsections. -/
def defaultSubSections : List SubSection :=
  [⟨"No Policy Sections Found",
    "The analysis could not identify specific policy sections in this document.",
    ["No specific policy recommendations could be extracted from this document."]⟩]

/-- The `try` block of `extractArticleInfo`; `.error` is the awaited call
rejecting (the only uncaught-throw point inside the block). -/
def extractArticleInfoTry (a : Article) (o : ExtractInvokeOutcome) :
    Except String Article :=
  match o with
  | .threw => .error "invoke rejected"
  | .nullResult =>
      .ok { a with
        spatialScope := "No result returned"
        timeRange := "No result returned"
        subSections := [] }
  | .withOutput d =>
      .ok { a with
        spatialScope := readStringField d.spatialScope
        timeRange := readStringField d.timeRange
        subSections :=
          if d.subSections.isEmpty then defaultSubSections else d.subSections }
  | .emptyOutput =>
      .ok { a with
        spatialScope := "Error during processing"
        timeRange := "Error during processing"
        subSections := [] }

/-- Function `extractArticleInfo` (extract.ts:48-188) at its promise interface:
`try` body plus the `catch` that converts a rejection into the
`'Error during processing'` record. -/
def extractArticleInfo (a : Article) (o : ExtractInvokeOutcome) :
    Except String Article :=
  match extractArticleInfoTry a o with
  | .ok r => .ok r
  | .error _ =>
      .ok { a with
        spatialScope := "Error during processing"
        timeRange := "Error during processing"
        subSections := [] }

/-- The record produced by the exhausted retry loop in
`batchExtractArticles`. -/
def extractionSentinel (a : Article) : Article :=
  { a with
    spatialScope := "Error during extraction"
    timeRange := "Error during extraction"
    subSections := [] }

/-- The `while (!success && retries < MAX_RETRIES)` loop of
`batchExtractArticles`; `call k` is the result of the k-th
`extractArticleInfo` invocation for this article (`.error` = the awaited
promise rejected).  State: remaining fuel, `retries`, invocations made.
Returns (`result`, number of invocations); fuel `MAX_RETRIES` covers every
possible run of the loop. -/
def retryLoopGo (call : Nat → Except String Article) (a : Article) :
    Nat → Nat → Nat → Option Article × Nat
  | 0, _, calls => (none, calls)
  | fuel + 1, retries, calls =>
    if retries < MAX_RETRIES then
      match call calls with
      | .ok r => (some r, calls + 1)
      | .error _ =>
        if retries + 1 ≥ MAX_RETRIES then (some (extractionSentinel a), calls + 1)
        else retryLoopGo call a fuel (retries + 1) (calls + 1)
    else (none, calls)

/-- Check `searchResults.some(r => typeof r === 'string' && r.includes(…))`. -/
def hasInternalServerError (a : Article) : Bool :=
  a.searchResults.any (fun r =>
    jsIncludes r.toList "nal Server Error\n Please fix your mistakes.".toList)

def skippedSentinel (a : Article) : Article :=
  { a with
    spatialScope := "Skipped due to server error"
    timeRange := "Skipped due to server error"
    subSections := [] }

def noResultSentinel (a : Article) : Article :=
  { a with
    spatialScope := "No result"
    timeRange := "No result"
    subSections := [] }

/-- The per-article worker inside `batchExtractArticles`: the server-error
skip, then the retry loop, then the `'No result'` default when the loop
left `result` null.  Returns the record together with the number of
`extractArticleInfo` invocations made. -/
def processArticle (call : Nat → Except String Article) (a : Article) :
    Article × Nat :=
  if hasInternalServerError a then (skippedSentinel a, 0)
  else
    match retryLoopGo call a MAX_RETRIES 0 0 with
    | (some r, calls) => (r, calls)
    | (none, calls) => (noResultSentinel a, calls)

/-- The `batch.map` body, threading the absolute article index (`invokeO i
k` is the outcome of the k-th invocation attempt for article `i`). -/
def batchMapGo (invokeO : Nat → Nat → ExtractInvokeOutcome) :
    Nat → List Article → List Article
  | _, [] => []
  | i, a :: rest =>
    (processArticle (fun k => extractArticleInfo a (invokeO i k)) a).1
      :: batchMapGo invokeO (i + 1) rest

/-- The outer batch loop: results of each slice are awaited and appended in
order (`Promise.all` preserves slice order; `filter(Boolean)` never drops a
record since every worker resolves with one). -/
def batchChunksGo (invokeO : Nat → Nat → ExtractInvokeOutcome) :
    Nat → List (List Article) → List Article
  | _, [] => []
  | i, b :: bs => batchMapGo invokeO i b ++ batchChunksGo invokeO (i + b.length) bs

/-- Function `batchExtractArticles` (extract.ts:191-266). -/
def batchExtractArticles (invokeO : Nat → Nat → ExtractInvokeOutcome)
    (articles : List Article) : List Article :=
  batchChunksGo invokeO 0 (chunked PROCESSING_BATCH_SIZE articles)

theorem extractArticleInfo_ok (a : Article) (o : ExtractInvokeOutcome) :
    ∃ r, extractArticleInfo a o = .ok r := by
  cases o <;> simp [extractArticleInfo, extractArticleInfoTry]

theorem retryLoopGo_first_ok (call : Nat → Except String Article) (a : Article)
    (r : Article) (h : call 0 = .ok r) :
    retryLoopGo call a MAX_RETRIES 0 0 = (some r, 1) := by
  simp [retryLoopGo, MAX_RETRIES, h]

theorem batchMapGo_append (invokeO : Nat → Nat → ExtractInvokeOutcome)
    (x y : List Article) : ∀ i, batchMapGo invokeO i (x ++ y)
      = batchMapGo invokeO i x ++ batchMapGo invokeO (i + x.length) y := by
  induction x with
  | nil => intro i; simp [batchMapGo]
  | cons a rest ih =>
    intro i
    simp only [List.cons_append, batchMapGo, List.length_cons, List.append_eq]
    rw [ih (i + 1), show i + 1 + rest.length = i + (rest.length + 1) from by omega]

theorem batchChunksGo_chunked (invokeO : Nat → Nat → ExtractInvokeOutcome) :
    ∀ (fuel : Nat) (l : List Article) (i : Nat), l.length ≤ fuel →
    batchChunksGo invokeO i (chunkedGo PROCESSING_BATCH_SIZE fuel l)
      = batchMapGo invokeO i l := by
  intro fuel
  induction fuel with
  | zero =>
    intro l i h
    have : l = [] := List.eq_nil_of_length_eq_zero (by omega)
    subst this
    simp [chunkedGo_nil, batchChunksGo, batchMapGo]
  | succ n ih =>
    intro l i h
    cases l with
    | nil => simp [chunkedGo_nil, batchChunksGo, batchMapGo]
    | cons a t =>
      simp only [chunkedGo, batchChunksGo]
      rw [ih ((a :: t).drop PROCESSING_BATCH_SIZE) _
        (by simp only [List.length_drop, List.length_cons,
          PROCESSING_BATCH_SIZE] at h ⊢; omega)]
      rw [← batchMapGo_append, List.take_append_drop]

theorem batchExtractArticles_eq_map (invokeO : Nat → Nat → ExtractInvokeOutcome)
    (articles : List Article) :
    batchExtractArticles invokeO articles = batchMapGo invokeO 0 articles :=
  batchChunksGo_chunked invokeO articles.length articles 0 le_rfl

theorem batchMapGo_length (invokeO : Nat → Nat → ExtractInvokeOutcome) :
    ∀ (l : List Article) (i : Nat), (batchMapGo invokeO i l).length = l.length := by
  intro l
  induction l with
  | nil => intro i; rfl
  | cons a rest ih => intro i; simp [batchMapGo, ih]

theorem batchMapGo_getElem (invokeO : Nat → Nat → ExtractInvokeOutcome) :
    ∀ (l : List Article) (s i : Nat) (a : Article), l[i]? = some a →
    (batchMapGo invokeO s l)[i]?
      = some ((processArticle
          (fun k => extractArticleInfo a (invokeO (s + i) k)) a).1) := by
  intro l
  induction l with
  | nil => intro s i a ha; simp at ha
  | cons b rest ih =>
    intro s i a ha
    cases i with
    | zero =>
      simp only [List.getElem?_cons_zero, Option.some.injEq] at ha
      subst ha
      simp [batchMapGo]
    | succ j =>
      simp only [List.getElem?_cons_succ] at ha
      have := ih (s + 1) j a ha
      simpa [batchMapGo, show s + 1 + j = s + (j + 1) by omega] using this

/-- The record the `catch` of `extractArticleInfo` resolves with (also
produced on a result without valid output). -/
def processingSentinel (a : Article) : Article :=
  { a with
    spatialScope := "Error during processing"
    timeRange := "Error during processing"
    subSections := [] }

/-- A concrete input article with ordinary search results. -/
def sampleArticle : Article :=
  ⟨"Sample article", "", "", [], ["ordinary search result"]⟩

/-- A second concrete input article. -/
def sampleArticleB : Article :=
  ⟨"Second sample article", "", "", [], []⟩

/-- C9: `extractArticleInfo` is total at its promise interface — for every
article and every collaborator outcome (including a rejected call) it
resolves with an `.ok` record and never rejects; consequently, in
`batchExtractArticles` the first iteration of the per-article retry loop
succeeds, the retry branch is dead, and `extractArticleInfo` is invoked
exactly once per (non-skipped) article. -/
theorem extract_promise_total_retry_dead (a : Article)
    (invokeO : Nat → ExtractInvokeOutcome)
    (hclean : hasInternalServerError a = false) :
    (∀ o, ∃ r, extractArticleInfo a o = .ok r) ∧
    (∃ r, extractArticleInfo a (invokeO 0) = .ok r ∧
      processArticle (fun k => extractArticleInfo a (invokeO k)) a = (r, 1)) := by
  refine ⟨extractArticleInfo_ok a, ?_⟩
  obtain ⟨r, hr⟩ := extractArticleInfo_ok a (invokeO 0)
  refine ⟨r, hr, ?_⟩
  simp only [processArticle, hclean, Bool.false_eq_true, if_false]
  rw [retryLoopGo_first_ok (fun k => extractArticleInfo a (invokeO k)) a r hr]

/-- Witness for `extract_promise_total_retry_dead` at concrete inputs. -/
theorem extract_promise_total_retry_dead_witness :
    (∃ r, extractArticleInfo sampleArticle .threw = .ok r) ∧
    (∃ r, extractArticleInfo sampleArticle
        ((fun _ => ExtractInvokeOutcome.threw) 0) = .ok r ∧
      processArticle
        (fun k => extractArticleInfo sampleArticle
          ((fun _ => ExtractInvokeOutcome.threw) k)) sampleArticle = (r, 1)) :=
  ⟨(extract_promise_total_retry_dead sampleArticle (fun _ => .threw)
      (by decide)).1 .threw,
   (extract_promise_total_retry_dead sampleArticle (fun _ => .threw)
      (by decide)).2⟩

/-- C7 (counterexample to the claim as stated): when every call to the
extraction collaborator throws, the produced record is tagged
`'Error during processing'` (by the catch inside `extractArticleInfo`),
not `'error during extraction'`, and only one `extractArticleInfo` attempt
is made — the retry loop of `batchExtractArticles` never retries. -/
theorem extract_throw_tag_counterexample :
    (processArticle
      (fun k => extractArticleInfo sampleArticle
        ((fun _ => ExtractInvokeOutcome.threw) k)) sampleArticle).1.spatialScope
      = "Error during processing" ∧
    (processArticle
      (fun k => extractArticleInfo sampleArticle
        ((fun _ => ExtractInvokeOutcome.threw) k)) sampleArticle).1.spatialScope
      ≠ "Error during extraction" ∧
    (processArticle
      (fun k => extractArticleInfo sampleArticle
        ((fun _ => ExtractInvokeOutcome.threw) k)) sampleArticle).2 = 1 := by
  refine ⟨by decide, by decide, by decide⟩

/-- C7 (amended): if every call to the extraction collaborator throws, the
pipeline makes exactly one `extractArticleInfo` attempt per non-skipped
item (the catch inside `extractArticleInfo` absorbs the failure before the
retry loop can observe it), produces a sentinel record tagged
`'Error during processing'` instead of propagating the exception, and
continues processing the remaining items of the run: the output has one
record per input article, in input order. -/
theorem extract_always_throw_behaviour (articles : List Article)
    (invokeO : Nat → Nat → ExtractInvokeOutcome)
    (hthrow : ∀ i k, invokeO i k = .threw) :
    (batchExtractArticles invokeO articles).length = articles.length ∧
    (∀ i a, articles[i]? = some a →
      (batchExtractArticles invokeO articles)[i]?
        = some ((processArticle
            (fun k => extractArticleInfo a (invokeO i k)) a).1)) ∧
    (∀ a, hasInternalServerError a = false → ∀ i,
      processArticle (fun k => extractArticleInfo a (invokeO i k)) a
        = (processingSentinel a, 1)) := by
  refine ⟨?_, ?_, ?_⟩
  · rw [batchExtractArticles_eq_map, batchMapGo_length]
  · intro i a ha
    rw [batchExtractArticles_eq_map]
    simpa using batchMapGo_getElem invokeO articles 0 i a ha
  · intro a hclean i
    have hcall : extractArticleInfo a (invokeO i 0) = .ok (processingSentinel a) := by
      rw [hthrow i 0]
      rfl
    simp only [processArticle, hclean, Bool.false_eq_true, if_false]
    rw [retryLoopGo_first_ok (fun k => extractArticleInfo a (invokeO i k)) a
      (processingSentinel a) hcall]

/-- Witness for `extract_always_throw_behaviour` at concrete inputs. -/
theorem extract_always_throw_behaviour_witness :
    (batchExtractArticles (fun _ _ => .threw)
      [sampleArticle, sampleArticleB]).length = 2 ∧
    processArticle
      (fun k => extractArticleInfo sampleArticle
        ((fun _ _ => ExtractInvokeOutcome.threw) 0 k)) sampleArticle
      = (processingSentinel sampleArticle, 1) := by
  refine ⟨?_, ?_⟩
  · have h := (extract_always_throw_behaviour [sampleArticle, sampleArticleB]
      (fun _ _ => .threw) (fun _ _ => rfl)).1
    simpa using h
  · exact (extract_always_throw_behaviour [sampleArticle, sampleArticleB]
      (fun _ _ => .threw) (fun _ _ => rfl)).2.2 sampleArticle (by decide) 0

end SortPipeline
